import Mathlib

/-
Verification of the range-partitioned parallel file copier (src/main.rs).

The development shallowly embeds the program: file contents are lists of
bytes (here Nat), positional reads are modelled by their length
min(buffer, size - offset) as returned by pread on a regular file, the
per-thread copy loop of copy_file is a fuel-indexed recursion producing the
list of positional writes it issues, and verify_copy is a step-indexed
recursion mirroring the chunked comparison loop.
-/

namespace Rpcp

/-- Size of each worker's private transfer buffer: vec![0; 1024 * 1024]. -/
def bufSize : Nat := 1024 * 1024

/-- Files strictly below this size are copied with a single thread. -/
def smallFileLimit : Nat := 1024 * 1024

/-- Thread-count adjustment performed by copy_file: if infile_size < 1 MiB
then num_threads = 1, otherwise the requested count is kept unchanged. -/
def clampThreads (size threads : Nat) : Nat :=
  if size < smallFileLimit then 1 else threads

/-- Rust integer division panics when the divisor is zero; the slice
computation infile_size / num_threads is modelled as a checked division. -/
def sliceChecked (size threads : Nat) : Option Nat :=
  if threads = 0 then none else some (size / threads)

/-- Slice computation as copy_file performs it, after the small-file
adjustment of the thread count. -/
def copySlice (size threads : Nat) : Option Nat :=
  sliceChecked size (clampThreads size threads)

/-- slice = infile_size / num_threads. -/
def sliceOf (size threads : Nat) : Nat := size / threads

/-- Start offset of thread i: pos = thrd_num * slice. -/
def rangeStart (size threads i : Nat) : Nat := i * sliceOf size threads

/-- Loop bound of thread i: while pos < (thrd_num + 1) * slice. The bound is
the same for every thread, the last one included. -/
def rangeEnd (size threads i : Nat) : Nat := (i + 1) * sliceOf size threads

/-- Number of bytes pread returns on a regular file of length size at
offset pos when asked for a full bufSize buffer. -/
def readLen (size pos : Nat) : Nat := min bufSize (size - pos)

/-- One worker's copy loop. Arguments: length of the source as seen by
pread, the loop bound (thrd_num + 1) * slice, fuel, and the cursor pos.
Returns the list of positional writes (offset, length) issued by pwrite and
the final cursor. A zero-byte read takes the break branch and returns
normally with no further writes. -/
def workerLoop (size endPos : Nat) : Nat → Nat → List (Nat × Nat) × Nat
  | 0, pos => ([], pos)
  | fuel + 1, pos =>
    if pos < endPos then
      let n := readLen size pos
      if 0 < n then
        let rest := workerLoop size endPos fuel (pos + n)
        ((pos, n) :: rest.1, rest.2)
      else ([], pos)
    else ([], pos)

/-- Run of thread i: the slice is computed from the size read once from the
metadata, while reads observe the actual current source length. The fuel
slice + 1 dominates the iteration count, since every continuing iteration
advances pos by at least one byte and starts below the loop bound. -/
def workerRun (metaSize actualSize threads i : Nat) : List (Nat × Nat) × Nat :=
  workerLoop actualSize (rangeEnd metaSize threads i)
    (sliceOf metaSize threads + 1) (rangeStart metaSize threads i)

/-- Positional writes issued by thread i. -/
def workerWrites (metaSize actualSize threads i : Nat) : List (Nat × Nat) :=
  (workerRun metaSize actualSize threads i).1

/-- All positional writes of the job, thread by thread. -/
def allWrites (metaSize actualSize threads : Nat) : List (Nat × Nat) :=
  (List.range threads).flatMap fun i => workerWrites metaSize actualSize threads i

/-- The fetch_add increments applied to the shared counter: one per write,
each by the number of bytes transferred. -/
def allIncrements (metaSize actualSize threads : Nat) : List Nat :=
  (allWrites metaSize actualSize threads).map Prod.snd

/-- Final value of the shared processed_bytes counter once every worker has
finished: the sum of all increments. -/
def totalTransferred (metaSize actualSize threads : Nat) : Nat :=
  (allIncrements metaSize actualSize threads).sum

/-- Guard of the progress-monitor loop: the thread keeps looping while
progress_clone.load() < infile_size, and exits only when that fails. -/
def monitorContinues (size counter : Nat) : Bool := decide (counter < size)

/-- Successive values taken by the shared counter, starting from
AtomicUsize::new(0), under a given order of the fetch_add increments. -/
def counterTrace (incs : List Nat) : List Nat := List.scanl (· + ·) 0 incs

/-- Value returned by copy_file on success: Ok(infile_size), the size read
once from the source metadata; the worker outcomes and the actual source
length do not enter into it. -/
def copyFileResult (metaSize actualSize threads : Nat) : Nat := metaSize

/-- Byte count printed by the final summary in main: the value returned by
copy_file. -/
def mainSummaryBytes (metaSize actualSize threads : Nat) : Nat :=
  copyFileResult metaSize actualSize threads

/-- Chunk size of the verifier: 10 * 1024 * 1024. -/
def verifyBufSize : Nat := 10 * 1024 * 1024

/-- Verify loop of verify_copy. Arguments: the two files, the number of
remaining steps, the step index k (the loop variable step equals
k * verifyBufSize), and the two sequential read cursors. Equal-length
chunk pairs are compared and the first difference aborts with the step
offset; unequal read lengths only warn and the loop continues. -/
def verifyGo (f1 f2 : List Nat) : Nat → Nat → Nat → Nat → Except Nat String
  | 0, _, _, _ => .ok "Verified files are identical."
  | m + 1, k, c1, c2 =>
    let r1 := min verifyBufSize (f1.length - c1)
    let r2 := min verifyBufSize (f2.length - c2)
    if r1 = r2 then
      if (f1.drop c1).take r1 ≠ (f2.drop c2).take r2 then
        .error (k * verifyBufSize)
      else verifyGo f1 f2 m (k + 1) (c1 + r1) (c2 + r2)
    else verifyGo f1 f2 m (k + 1) (c1 + r1) (c2 + r2)

/-- Number of iterations of for step in (0..file_size).step_by(buffer_size). -/
def verifySteps (fileSize : Nat) : Nat :=
  (fileSize + verifyBufSize - 1) / verifyBufSize

/-- verify_copy: streams both files in 10 MiB chunks and compares them;
the Err payload records the offset printed in the mismatch message. -/
def verifyCopy (f1 f2 : List Nat) (fileSize : Nat) : Except Nat String :=
  verifyGo f1 f2 (verifySteps fileSize) 0 0 0

/-- C1: the claim states that the planner's ranges cover [0, S) exactly,
the last range absorbing the remainder S mod W. The code bounds every
thread's loop, the last one included, by (i + 1) * slice, so for a source
of 2097153 bytes copied with 2 threads the last range ends at 2097152 and
the final byte at offset 2097152 is inside no range; every positional
write of the whole job ends at or before offset 2097152, so that byte is
never copied even through buffer overshoot. -/
theorem c1_last_byte_never_written :
    rangeEnd 2097153 2 1 = 2097152 ∧
    allWrites 2097153 2097153 2 = [(0, 1048576), (1048576, 1048576)] ∧
    (allWrites 2097153 2097153 2).all (fun w => decide (w.1 + w.2 ≤ 2097152)) = true ∧
    2097152 < 2097153 :=
  ⟨rfl, rfl, rfl, by omega⟩

/-- C2 counterexample: the claim bounds each read by
min(buffer size, range end - cursor). With a 3145728-byte source and 2
threads, thread 0 has range end 1572864 yet issues the write
(1048576, 1048576), which extends to offset 2097152, past its range end:
the read length was not bounded by range end - cursor. -/
theorem c2_counterexample :
    (1048576, 1048576) ∈ workerWrites 3145728 3145728 2 0 ∧
    rangeEnd 3145728 2 0 = 1572864 ∧
    1572864 < 1048576 + 1048576 := by
  refine ⟨by decide, rfl, by omega⟩

/-- C3 counterexample: the claim says a zero-byte read before range end
fails the worker with ShortReadError. With slices planned from a metadata
size of 2097152 bytes but the source truncated to 1048576 bytes, thread 1
starts at offset 1048576, its first read returns zero bytes while its
cursor is still below its range end 2097152, and the loop takes the break
branch: the worker returns normally with no writes and no error of any
kind (the thread body has no error outcome at all). -/
theorem c3_counterexample :
    workerRun 2097152 1048576 2 1 = ([], 1048576) ∧
    readLen 1048576 (rangeStart 2097152 2 1) = 0 ∧
    rangeStart 2097152 2 1 < rangeEnd 2097152 2 1 :=
  ⟨rfl, rfl, by decide⟩

/-- Helper: every write issued by the copy loop transfers exactly
min(bufSize, size - pos) bytes, never reaches past the source end, and
starts below the loop bound. -/
theorem workerLoop_writes_spec (size endPos : Nat) :
    ∀ fuel pos, ∀ w ∈ (workerLoop size endPos fuel pos).1,
      w.2 = readLen size w.1 ∧ w.1 + w.2 ≤ size ∧ w.1 < endPos := by
  intro fuel
  induction fuel with
  | zero => intro pos w hw; simp [workerLoop] at hw
  | succ fuel ih =>
    intro pos w hw
    by_cases h1 : pos < endPos
    · by_cases h2 : 0 < readLen size pos
      · simp only [workerLoop, if_pos h1, if_pos h2, List.mem_cons] at hw
        rcases hw with hw | hw
        · subst hw
          have hle : readLen size pos ≤ size - pos := by
            unfold readLen; exact Nat.min_le_right _ _
          exact ⟨rfl, by omega, h1⟩
        · exact ih (pos + readLen size pos) w hw
      · simp only [workerLoop, if_pos h1, if_neg h2] at hw
        simp at hw
    · simp only [workerLoop, if_neg h1] at hw
      simp at hw

/-- C2 (amended): the length of each positional read is
min(buffer size, source size - cursor); every write starts below the
range end and never reaches past the source end, but it may extend past
the range end (see the counterexample). -/
theorem c2_amended_read_bound (metaSize actualSize threads i : Nat) :
    ∀ w ∈ workerWrites metaSize actualSize threads i,
      w.2 = readLen actualSize w.1 ∧ w.1 + w.2 ≤ actualSize ∧
      w.1 < rangeEnd metaSize threads i :=
  workerLoop_writes_spec actualSize (rangeEnd metaSize threads i) _ _

/-- C2 amended claim witnessed on the overshooting write of thread 0 in
the 3145728-byte, 2-thread run. -/
theorem c2_amended_read_bound_witness :
    (1048576, 1048576) ∈ workerWrites 3145728 3145728 2 0 ∧
    ((1048576, 1048576) : Nat × Nat).2 = readLen 3145728 1048576 ∧
    1048576 + 1048576 ≤ 3145728 ∧
    1048576 < rangeEnd 3145728 2 0 :=
  ⟨by decide, c2_amended_read_bound 3145728 3145728 2 0 (1048576, 1048576) (by decide)⟩

/-- C3 (amended): when a positional read returns zero bytes while the
cursor is still below the range end, the worker takes the break branch
and terminates at once, normally, with no further writes and no error
indication of any kind. -/
theorem c3_amended_zero_read_silent_break (size endPos fuel pos : Nat)
    (hfuel : 0 < fuel) (hpos : pos < endPos) (hzero : readLen size pos = 0) :
    workerLoop size endPos fuel pos = ([], pos) := by
  cases fuel with
  | zero => omega
  | succ fuel => simp [workerLoop, hpos, hzero]

/-- C3 amended claim witnessed on thread 1 of the truncated-source run:
the read at offset 1048576 returns zero bytes with the range end still
1048576 bytes away, and the loop returns normally at once. -/
theorem c3_amended_zero_read_silent_break_witness :
    (0 : Nat) < 1048577 ∧ 1048576 < 2097152 ∧ readLen 1048576 1048576 = 0 ∧
    workerLoop 1048576 2097152 1048577 1048576 = ([], 1048576) :=
  ⟨by decide, by decide, by decide,
    c3_amended_zero_read_silent_break 1048576 2097152 1048577 1048576
      (by decide) (by decide) (by decide)⟩

/-- C5: the claim says the worker count is clamped to at least 1 so the
slice division is always well-defined. The only adjustment in copy_file is
the small-file one: for a 1048576-byte source a requested count of 0 is
kept, and slice = size / 0 is a Rust division by zero, which panics; for a
1048575-byte source the small-file branch rescues the same request. -/
theorem c5_div_by_zero :
    clampThreads 1048576 0 = 0 ∧
    copySlice 1048576 0 = none ∧
    copySlice 1048575 0 = some 1048575 :=
  ⟨rfl, rfl, rfl⟩

/-- C6 counterexample: the claim says the counter never exceeds the total
size at job completion. With a 3145728-byte source and 2 threads, thread 0
overshoots its range and the overlap is transferred twice, so the final
counter is 3670016, strictly greater than the source size. -/
theorem c6_counterexample :
    totalTransferred 3145728 3145728 2 = 3670016 ∧
    3145728 < 3670016 :=
  ⟨rfl, by omega⟩

/-- Helper: the counter trace starts at the initial accumulator. -/
theorem scanl_add_head (incs : List Nat) (b : Nat) :
    (List.scanl (· + ·) b incs).head? = some b := by
  cases incs <;> rfl

/-- Helper: successive partial sums of natural increments never decrease. -/
theorem scanl_add_chain (incs : List Nat) :
    ∀ b : Nat, List.Chain' (· ≤ ·) (List.scanl (· + ·) b incs) := by
  induction incs with
  | nil => intro b; simp [List.scanl]
  | cons a l ih =>
    intro b
    rw [List.scanl_cons, List.cons_append, List.nil_append, List.chain'_cons']
    refine ⟨?_, ih (b + a)⟩
    intro y hy
    rw [scanl_add_head] at hy
    simp only [Option.mem_def, Option.some.injEq] at hy
    omega

/-- Helper: the last value of the trace is the initial accumulator plus
the sum of all increments. -/
theorem scanl_add_getLast (incs : List Nat) :
    ∀ b : Nat, (List.scanl (· + ·) b incs).getLast? = some (b + incs.sum) := by
  induction incs with
  | nil => intro b; simp [List.scanl]
  | cons a l ih =>
    intro b
    rw [List.scanl_cons, List.cons_append, List.nil_append]
    have hne : List.scanl (· + ·) (b + a) l ≠ [] := by
      cases l <;> simp [List.scanl]
    rcases hl : List.scanl (· + ·) (b + a) l with _ | ⟨c, l2⟩
    · exact absurd hl hne
    · rw [List.getLast?_cons_cons, ← hl, ih (b + a)]
      simp [Nat.add_assoc]

/-- C6 (amended): the shared counter starts at zero, is monotonically
non-decreasing, and is incremented only by the workers, its final value
being the total number of bytes the workers transferred, in any order the
fetch_add increments are interleaved; that total counts overshot overlap
twice and can exceed the source size (see the counterexample). -/
theorem c6_amended_counter (metaSize actualSize threads : Nat) (incs : List Nat)
    (hperm : incs.Perm (allIncrements metaSize actualSize threads)) :
    (counterTrace incs).head? = some 0 ∧
    List.Chain' (· ≤ ·) (counterTrace incs) ∧
    (counterTrace incs).getLast? = some (totalTransferred metaSize actualSize threads) := by
  refine ⟨scanl_add_head incs 0, scanl_add_chain incs 0, ?_⟩
  rw [counterTrace, scanl_add_getLast, hperm.sum_eq]
  simp [totalTransferred]

/-- C6 amended claim witnessed on the 3145728-byte, 2-thread run with the
increments applied in program order. -/
theorem c6_amended_counter_witness :
    (allIncrements 3145728 3145728 2).Perm (allIncrements 3145728 3145728 2) ∧
    ((counterTrace (allIncrements 3145728 3145728 2)).head? = some 0 ∧
     List.Chain' (· ≤ ·) (counterTrace (allIncrements 3145728 3145728 2)) ∧
     (counterTrace (allIncrements 3145728 3145728 2)).getLast?
       = some (totalTransferred 3145728 3145728 2)) :=
  ⟨List.Perm.refl _,
    c6_amended_counter 3145728 3145728 2 _ (List.Perm.refl _)⟩

/-- C7: the claim says the progress monitor terminates once the join
barrier resolves even if the counter never reaches the total size. The
monitor loop's only exit condition is counter >= size: for a 2097153-byte
source with 2 threads all workers finish with the counter stuck at
2097152, the guard counter < size still holds, and the monitor loops
forever, so main's join on it never returns. -/
theorem c7_monitor_never_exits :
    totalTransferred 2097153 2097153 2 = 2097152 ∧
    monitorContinues 2097153 2097152 = true :=
  ⟨rfl, rfl⟩

/-- Helper: any mismatch the verify loop reports from step index k onward
carries an offset of at least k * verifyBufSize. -/
theorem verifyGo_error_lb (f1 f2 : List Nat) :
    ∀ m k c1 c2 e, verifyGo f1 f2 m k c1 c2 = .error e →
      k * verifyBufSize ≤ e := by
  intro m
  induction m with
  | zero => intro k c1 c2 e h; simp [verifyGo] at h
  | succ m ih =>
    intro k c1 c2 e h
    have hstep : k * verifyBufSize ≤ (k + 1) * verifyBufSize := by
      rw [Nat.succ_mul]; omega
    simp only [verifyGo] at h
    by_cases h12 : min verifyBufSize (f1.length - c1) = min verifyBufSize (f2.length - c2)
    · rw [if_pos h12] at h
      by_cases hne : (f1.drop c1).take (min verifyBufSize (f1.length - c1))
          ≠ (f2.drop c2).take (min verifyBufSize (f2.length - c2))
      · rw [if_pos hne] at h
        have : k * verifyBufSize = e := by injection h
        omega
      · rw [if_neg hne] at h
        have := ih (k + 1) _ _ e h
        omega
    · rw [if_neg h12] at h
      have := ih (k + 1) _ _ e h
      omega

/-- C9: when the two reads of a verification step return different
lengths, the loop only warns: it proceeds to the next step with both
cursors advanced by their own read lengths, it does not fail verification
at that step, and any mismatch it ever reports comes from a strictly
later step offset. -/
theorem c9_uneven_reads_continue (f1 f2 : List Nat) (m k c1 c2 : Nat)
    (h : min verifyBufSize (f1.length - c1) ≠ min verifyBufSize (f2.length - c2)) :
    verifyGo f1 f2 (m + 1) k c1 c2
      = verifyGo f1 f2 m (k + 1) (c1 + min verifyBufSize (f1.length - c1))
          (c2 + min verifyBufSize (f2.length - c2)) ∧
    ∀ e, verifyGo f1 f2 (m + 1) k c1 c2 = .error e →
      k * verifyBufSize < e := by
  have heq : verifyGo f1 f2 (m + 1) k c1 c2
      = verifyGo f1 f2 m (k + 1) (c1 + min verifyBufSize (f1.length - c1))
          (c2 + min verifyBufSize (f2.length - c2)) := by
    simp only [verifyGo]
    rw [if_neg h]
  refine ⟨heq, ?_⟩
  intro e he
  rw [heq] at he
  have hlb := verifyGo_error_lb f1 f2 m (k + 1) _ _ e he
  have hpos : 0 < verifyBufSize := by decide
  rw [Nat.succ_mul] at hlb
  omega

/-- C9 witnessed on a one-byte file against an empty file: the reads
return 1 and 0 bytes, the step is skipped with a warning, and the run
ends without any failure. -/
theorem c9_uneven_reads_continue_witness :
    (min verifyBufSize (List.length [0] - 0)
      ≠ min verifyBufSize (List.length ([] : List Nat) - 0)) ∧
    (verifyGo [0] [] 1 0 0 0
      = verifyGo [0] [] 0 1 (0 + min verifyBufSize (List.length [0] - 0))
          (0 + min verifyBufSize (List.length ([] : List Nat) - 0)) ∧
     ∀ e, verifyGo [0] [] 1 0 0 0 = .error e → 0 * verifyBufSize < e) :=
  ⟨by decide, c9_uneven_reads_continue [0] [] 0 0 0 0 (by decide)⟩

/-- C8 counterexample: the claim says verification reports the exact byte
offset of a one-byte corruption. Two six-byte files differing only at
offset 5 produce a mismatch report at offset 0, the starting offset of the
10 MiB chunk, not the exact position 5. -/
theorem c8_counterexample :
    verifyCopy [9, 9, 9, 9, 9, 1] [9, 9, 9, 9, 9, 2] 6 = .error 0 ∧
    (0 : Nat) ≠ 5 :=
  ⟨rfl, by omega⟩

/-- Helper: two files agreeing on their first c + n entries yield the same
chunk of length n at cursor c. -/
theorem take_drop_eq_of_take_eq (f g : List Nat) (c n : Nat)
    (h : f.take (c + n) = g.take (c + n)) :
    (f.drop c).take n = (g.drop c).take n := by
  have hf : (f.drop c).take n = (f.take (c + n)).drop c := by
    rw [List.drop_take]
    congr 1
    omega
  have hg : (g.drop c).take n = (g.take (c + n)).drop c := by
    rw [List.drop_take]
    congr 1
    omega
  rw [hf, hg, h]

/-- Helper: when the window of length n at cursor c straddles the single
corrupted position, the two chunks differ. -/
theorem chunk_ne (l r : List Nat) (a b : Nat) (hab : a ≠ b) (c n : Nat)
    (hcl : c ≤ l.length) (hln : l.length < c + n) :
    ((l ++ a :: r).drop c).take n ≠ ((l ++ b :: r).drop c).take n := by
  intro heq
  have key : ∀ x : Nat,
      (((l ++ x :: r).drop c).take n)[l.length - c]? = some x := by
    intro x
    rw [List.getElem?_take, if_pos (by omega), List.getElem?_drop]
    have hc : c + (l.length - c) = l.length := by omega
    rw [hc, List.getElem?_append_right (le_refl _), Nat.sub_self]
    simp
  have hka := key a
  rw [heq, key b] at hka
  exact hab (Option.some.inj hka).symm

/-- Helper: started at step index k with both cursors at k * chunk and the
single corrupted position not yet passed, the verify loop reports the
mismatch at the starting offset of the chunk containing that position. -/
theorem verifyGo_locate (l r : List Nat) (a b : Nat) (hab : a ≠ b) :
    ∀ m k, (l ++ a :: r).length ≤ (k + m) * verifyBufSize →
      k * verifyBufSize ≤ l.length →
      verifyGo (l ++ a :: r) (l ++ b :: r) m k
        (k * verifyBufSize) (k * verifyBufSize)
      = .error ((l.length / verifyBufSize) * verifyBufSize) := by
  intro m
  induction m with
  | zero =>
    intro k htot hko
    exfalso
    simp only [List.length_append, List.length_cons, Nat.add_zero] at htot
    omega
  | succ m ih =>
    intro k htot hko
    have hlen : (l ++ b :: r).length = (l ++ a :: r).length := by simp
    have holt : l.length < (l ++ a :: r).length := by
      simp only [List.length_append, List.length_cons]
      omega
    simp only [verifyGo, hlen]
    rw [if_pos trivial]
    by_cases hwin : l.length
        < k * verifyBufSize
          + min verifyBufSize ((l ++ a :: r).length - k * verifyBufSize)
    · have hne := chunk_ne l r a b hab (k * verifyBufSize)
        (min verifyBufSize ((l ++ a :: r).length - k * verifyBufSize)) hko hwin
      rw [if_pos hne]
      have hdiv : l.length / verifyBufSize = k := by
        have hnB : min verifyBufSize ((l ++ a :: r).length - k * verifyBufSize)
            ≤ verifyBufSize := Nat.min_le_left _ _
        simp only [verifyBufSize] at hko hwin hnB ⊢
        omega
      rw [hdiv]
    · have hcn : k * verifyBufSize
          + min verifyBufSize ((l ++ a :: r).length - k * verifyBufSize)
          ≤ l.length := by omega
      have htk : (l ++ a :: r).take
            (k * verifyBufSize
              + min verifyBufSize ((l ++ a :: r).length - k * verifyBufSize))
          = (l ++ b :: r).take
            (k * verifyBufSize
              + min verifyBufSize ((l ++ a :: r).length - k * verifyBufSize)) := by
        rw [List.take_append_of_le_length hcn, List.take_append_of_le_length hcn]
      have hchunks := take_drop_eq_of_take_eq (l ++ a :: r) (l ++ b :: r)
        (k * verifyBufSize)
        (min verifyBufSize ((l ++ a :: r).length - k * verifyBufSize)) htk
      rw [if_neg (not_not_intro hchunks)]
      have hnB : min verifyBufSize ((l ++ a :: r).length - k * verifyBufSize)
          = verifyBufSize := by
        simp only [verifyBufSize] at hcn hko holt ⊢
        omega
      rw [hnB]
      have hstep : k * verifyBufSize + verifyBufSize = (k + 1) * verifyBufSize := by
        simp only [verifyBufSize]
        omega
      rw [hstep]
      refine ih (k + 1) ?_ ?_
      · have : k + (m + 1) = k + 1 + m := by omega
        rw [this] at htot
        exact htot
      · omega

/-- C8 (amended): for a copy with a single one-byte corruption,
verification fails and the reported offset is the starting offset of the
10 MiB chunk containing the corrupted byte, that is the corrupted
position rounded down to a multiple of the chunk size, not the exact
position itself. -/
theorem c8_amended_chunk_offset (l r : List Nat) (a b : Nat) (hab : a ≠ b) :
    verifyCopy (l ++ a :: r) (l ++ b :: r) (l ++ a :: r).length
      = .error ((l.length / verifyBufSize) * verifyBufSize) := by
  unfold verifyCopy
  rw [show (0 : Nat) = 0 * verifyBufSize from (Nat.zero_mul _).symm]
  refine verifyGo_locate l r a b hab (verifySteps (l ++ a :: r).length) 0 ?_ ?_
  · simp only [verifySteps, verifyBufSize, Nat.zero_add]
    omega
  · simp only [Nat.zero_mul]
    omega

/-- C8 amended claim witnessed on six-byte files corrupted at offset 5:
the reported offset is 5 / (10 MiB) * (10 MiB) = 0, the chunk start. -/
theorem c8_amended_chunk_offset_witness :
    (1 : Nat) ≠ 2 ∧
    verifyCopy ([0, 0, 0, 0, 0] ++ 1 :: []) ([0, 0, 0, 0, 0] ++ 2 :: [])
        ([0, 0, 0, 0, 0] ++ 1 :: []).length
      = .error ((List.length [0, 0, 0, 0, 0] / verifyBufSize) * verifyBufSize) :=
  ⟨by omega, c8_amended_chunk_offset [0, 0, 0, 0, 0] [] 1 2 (by omega)⟩

/-- C10: copy_file returns Ok(infile_size), the size read once from the
source metadata, independent of the actual source length seen by the
workers and of the thread count, and the final summary reports exactly that
value; for the 3145728-byte run with 2 threads the workers actually
transfer 3670016 bytes, yet the reported figure is still the metadata
size. -/
theorem c10_returns_metadata_size :
    (∀ metaSize actualSize threads actualSize2 threads2 : Nat,
      copyFileResult metaSize actualSize threads = metaSize ∧
      copyFileResult metaSize actualSize threads
        = copyFileResult metaSize actualSize2 threads2 ∧
      mainSummaryBytes metaSize actualSize threads
        = copyFileResult metaSize actualSize threads) ∧
    totalTransferred 3145728 3145728 2 ≠ copyFileResult 3145728 3145728 2 :=
  ⟨fun _ _ _ _ _ => ⟨rfl, rfl, rfl⟩, by decide⟩

end Rpcp
